import Mathlib

/-!
# go-fact: rating engine and store operations of `main.go`

A shallow embedding of the command-line fact tracker.  The SQLite store is a pair of
tables (lists of rows in storage order) together with the two AUTOINCREMENT counters;
every SQL statement of `main.go` is a list function over those tables, the rows a query
hands to `rows.Scan` are lists of column values, and the interactive functions take the
outcome of each prompt as an argument and return the new store with the trace of what
they showed.

Representation choices, fixed once here:

* A `time.Time` is its wall-clock reading together with the offset of its zone from UTC.
  The driver binds it to the `dateadded` column as the text of layout
  `2006-01-02 15:04:05.999999999-07:00`, and `ORDER BY dateadded` compares those texts
  byte by byte; `Format("2006-01-02")` is an argument `formatDate`.
* Go `int` and the `float64` running total of `getEmployeeRatingHistory` are `Int`: every
  value either variable takes is an integer bounded in magnitude by the number of rows
  of the `fact` table, which is exact in both machine types for any table SQLite can hold.
* Foreign keys are declared but not enforced (the connection string `system.db` leaves
  `PRAGMA foreign_keys` off), so a `DELETE` never fails on account of referencing rows.
* Storage failures (I/O errors of the database file or of `facts.csv`) are outside the
  model; the only panics are the ones `rows.Scan` raises deterministically.
-/

namespace GoFact

/-! ## Data model -/

/-- Record `Employee` (main.go 20-24). -/
structure Employee where
  ID : Int
  FullName : String
  Position : String
deriving DecidableEq, Repr

/-- A `time.Time` as `time.Now()` returns it: the reading of the local wall clock and the
offset of the local zone east of UTC, in seconds. -/
structure Time where
  year : Nat
  month : Nat
  day : Nat
  hour : Nat
  minute : Nat
  second : Nat
  nanosecond : Nat
  offset : Int
deriving DecidableEq, Repr

/-- Decimal digits of `n`, padded with zeros on the left to `width`. -/
def pad (width n : Nat) : String :=
  String.mk (List.replicate (width - (toString n).length) '0') ++ toString n

/-- Layout element `.999999999`: nothing for a whole second, else the point and the nine
digits of the nanoseconds without their trailing zeros. -/
def fraction (nanosecond : Nat) : String :=
  if nanosecond = 0 then ""
  else "." ++ String.mk (((pad 9 nanosecond).toList.reverse.dropWhile fun c => c = '0').reverse)

/-- Layout element `-07:00`: sign, hours and minutes of the zone offset, the offset
converted to minutes by the truncating division of Go. -/
def zone (offset : Int) : String :=
  let z := Int.tdiv offset 60
  (if z < 0 then "-" else "+") ++ pad 2 (z.natAbs / 60) ++ ":" ++ pad 2 (z.natAbs % 60)

/-- Text the driver stores for a `time.Time` bound to a statement:
`v.Format("2006-01-02 15:04:05.999999999-07:00")`. -/
def Time.stored (t : Time) : String :=
  pad 4 t.year ++ "-" ++ pad 2 t.month ++ "-" ++ pad 2 t.day ++ " " ++ pad 2 t.hour ++ ":"
    ++ pad 2 t.minute ++ ":" ++ pad 2 t.second ++ fraction t.nanosecond ++ zone t.offset

/-- Comparison `memcmp` of two byte strings: the first differing byte decides, and a
string is below its proper extensions. -/
def lexLE : List Nat → List Nat → Bool
  | [], _ => true
  | _ :: _, [] => false
  | a :: as, b :: bs => if a < b then true else if b < a then false else lexLE as bs

/-- Order of two TEXT values under the BINARY collation, by which `ORDER BY` sorts a
column of texts: `memcmp` of the UTF-8 bytes, which orders texts as it orders their
sequences of code points. -/
def textLE (a b : String) : Bool :=
  lexLE (a.toList.map Char.toNat) (b.toList.map Char.toNat)

/-- Days from 1970-01-01 to the given date of the proleptic Gregorian calendar. -/
def daysFromCivil (year month day : Nat) : Int :=
  let y : Int := if month ≤ 2 then (year : Int) - 1 else year
  let era := y / 400
  let yoe := y - era * 400
  let mp : Int := if month ≤ 2 then (month : Int) + 9 else (month : Int) - 3
  let doy := (153 * mp + 2) / 5 + (day : Int) - 1
  let doe := yoe * 365 + yoe / 4 - yoe / 100 + doy
  era * 146097 + doe - 719468

/-- The instant of a `time.Time`, in nanoseconds since 1970-01-01 00:00:00 UTC: the
wall-clock reading less the zone offset. -/
def Time.unixNano (t : Time) : Int :=
  ((daysFromCivil t.year t.month t.day * 86400 + t.hour * 3600 + t.minute * 60 + t.second)
      - t.offset) * 1000000000 + t.nanosecond

/-- Record `Fact` (main.go 27-33). -/
structure Fact where
  ID : Int
  Text : String
  DateAdded : Time
  FactRating : String
  EmployeeID : Int
deriving DecidableEq, Repr

/-- Contents of `system.db`: the two tables created by `initDB` in storage order, and the
`sqlite_sequence` counters of the two AUTOINCREMENT keys. -/
structure Store where
  employee : List Employee
  fact : List Fact
  employeeSeq : Int
  factSeq : Int
deriving DecidableEq, Repr

/-- Schema constraint `"id" integer NOT NULL PRIMARY KEY` of both tables: no two rows of
a table carry the same id. -/
def Store.PrimaryKeys (s : Store) : Prop :=
  (s.employee.map Employee.ID).Nodup ∧ (s.fact.map Fact.ID).Nodup

instance (s : Store) : Decidable s.PrimaryKeys :=
  inferInstanceAs (Decidable ((s.employee.map Employee.ID).Nodup ∧ (s.fact.map Fact.ID).Nodup))

/-- A column value as the driver hands it to `rows.Scan`. -/
inductive SqlValue where
  | null
  | integer (i : Int)
  | text (s : String)
  | datetime (t : Time)
deriving DecidableEq, Repr

/-- One result row of a query. -/
abbrev Row := List SqlValue

/-- The errors `rows.Scan` reports; every caller but `showTopEmployees` panics on them. -/
inductive ScanError where
  /-- Report `sql: expected <columns> destination arguments in Scan, not <dest>`. -/
  | arity (columns dest : Nat)
  /-- Report that the column at this index cannot be stored into its destination. -/
  | convert (column : Nat)
deriving DecidableEq, Repr

/-- What an interactive function did, in order. -/
inductive Event where
  /-- Text written to standard output by `fmt.Print*`. -/
  | stdout (text : String)
  /-- A `promptui.Select` that was run. -/
  | select (label : String) (items : List String)
  /-- A line read from standard input. -/
  | readLine
  /-- A table rendered by `t.Render()`: header and rows. -/
  | table (header : List String) (rows : List (List SqlValue))
  /-- The records flushed to the named file by the CSV writer. -/
  | file (name : String) (records : List (List String))
  /-- The line `Ошибка при чтении результатов:` with the error, printed by `showTopEmployees`. -/
  | scanFailure (err : ScanError)
deriving DecidableEq, Repr

/-- Result of `prompt.Run()`: the error of a cancelled prompt, or the selected item. -/
abbrev PromptResult := Except String String

/-! ## `rows.Scan`

`Rows.Scan` first compares the number of destinations with the number of columns and
only then converts column by column.  A destination of type `int`, `string` or
`time.Time` accepts a column of its own kind; `NULL` is rejected by all three.  The
cross-kind conversions of `database/sql` are never reached by this program (each `Scan`
either reads columns of the kinds of its destinations or fails the arity test), and are
reported as conversion errors here. -/

/-- Destination `*int`. -/
def scanInt (column : Nat) : SqlValue → Except ScanError Int
  | .integer i => .ok i
  | _ => .error (.convert column)

/-- Destination `*string`. -/
def scanString (column : Nat) : SqlValue → Except ScanError String
  | .text s => .ok s
  | _ => .error (.convert column)

/-- Destination `*time.Time`. -/
def scanTime (column : Nat) : SqlValue → Except ScanError Time
  | .datetime t => .ok t
  | _ => .error (.convert column)

/-! ## Go maps keyed by strings -/

/-- A Go `map[string]β` as an association list with one entry per key. -/
abbrev GoMap (β : Type) := List (String × β)

/-- Two-valued lookup `v, ok := m[k]`. -/
def GoMap.find? {β : Type} : GoMap β → String → Option β
  | [], _ => none
  | (k, v) :: rest, key => if k = key then some v else GoMap.find? rest key

/-- Lookup `m[k]`, the zero value when the key is absent. -/
def GoMap.index {β : Type} (zero : β) (m : GoMap β) (key : String) : β :=
  (m.find? key).getD zero

/-- Assignment `m[k] = v`. -/
def GoMap.set {β : Type} : GoMap β → String → β → GoMap β
  | [], key, v => [(key, v)]
  | (k, w) :: rest, key, v =>
    if k = key then (k, v) :: rest else (k, w) :: GoMap.set rest key v

/-- The keys of the map. -/
def GoMap.keys {β : Type} (m : GoMap β) : List String := m.map Prod.fst

/-! ## The three rating-to-delta computations -/

/-- Statement `switch factRating` of `calculateEmployeeRatings` (main.go 250-258). -/
def ratingValue (factRating : String) : Int :=
  if factRating = "положительная" then 1
  else if factRating = "отрицательная" then -1
  else 0

/-- Statement `switch factRatingStr` of `getEmployeeRatingHistory` (main.go 382-390); the
`float64` values 1, -1 and 0. -/
def factRatingFloat (factRatingStr : String) : Int :=
  if factRatingStr = "положительная" then 1
  else if factRatingStr = "отрицательная" then -1
  else 0

/-- Expression `CASE f.factrating WHEN 'положительная' THEN 1 WHEN 'отрицательная' THEN -1
ELSE 0 END` of `showTopEmployees` (main.go 583-586): `WHEN` compares with `=`, which no
`NULL` and no value of another kind satisfies. -/
def caseFactrating : SqlValue → Int
  | .text s =>
    if s = "положительная" then 1
    else if s = "отрицательная" then -1
    else 0
  | _ => 0

/-! ## Tables and queries -/

/-- Columns of a `fact` row, in schema order. -/
def factColumns (f : Fact) : Row :=
  [.integer f.ID, .text f.Text, .datetime f.DateAdded, .text f.FactRating, .integer f.EmployeeID]

/-- Columns of an `employee` row, in schema order. -/
def employeeColumns (e : Employee) : Row :=
  [.integer e.ID, .text e.FullName, .text e.Position]

/-- Query `FROM fact JOIN employee ON fact.employeeid = employee.id`: each fact paired
with every employee whose id it references, in fact order. -/
def factJoinEmployee (s : Store) : List (Fact × Employee) :=
  s.fact.flatMap fun f =>
    (s.employee.filter fun e => f.EmployeeID = e.ID).map fun e => (f, e)

/-- Query `SELECT * FROM fact JOIN employee ON fact.employeeid = employee.id`
(main.go 156 and 446): all columns of `fact` followed by all columns of `employee`. -/
def selectStarFactJoinEmployee (s : Store) : List Row :=
  (factJoinEmployee s).map fun p => factColumns p.1 ++ employeeColumns p.2

/-- Query `SELECT * FROM employee` (main.go 137). -/
def selectStarEmployee (s : Store) : List Row :=
  s.employee.map employeeColumns

/-- Query `SELECT e.fullname, f.factrating FROM fact f JOIN employee e ON f.employeeid = e.id`
(main.go 230-234). -/
def selectFullnameFactrating (s : Store) : List Row :=
  (factJoinEmployee s).map fun p => [.text p.2.FullName, .text p.1.FactRating]

/-- The facts `WHERE employeeid = ? ORDER BY dateadded` (main.go 359-363): the rows of
the employee sorted by the stored text of their `dateadded` column. -/
def factsOfEmployeeByDate (s : Store) (employeeID : Int) : List Fact :=
  List.insertionSort
    (fun a b : Fact => textLE a.DateAdded.stored b.DateAdded.stored = true)
    (s.fact.filter fun f => f.EmployeeID = employeeID)

/-- Query `SELECT dateadded, factrating FROM fact WHERE employeeid = ? ORDER BY dateadded`. -/
def selectHistory (s : Store) (employeeID : Int) : List Row :=
  (factsOfEmployeeByDate s employeeID).map fun f => [.datetime f.DateAdded, .text f.FactRating]

/-- Rows of one employee in `employee e LEFT JOIN fact f ON e.id = f.employeeid`: the
employee paired with each of its facts, or once with an all-`NULL` fact when it has none. -/
def leftJoinRows (s : Store) (e : Employee) : List (Employee × Option Fact) :=
  match s.fact.filter fun f => e.ID = f.EmployeeID with
  | [] => [(e, none)]
  | fs => fs.map fun f => (e, some f)

/-- Query `FROM employee e LEFT JOIN fact f ON e.id = f.employeeid`, in employee order. -/
def employeeLeftJoinFact (s : Store) : List (Employee × Option Fact) :=
  s.employee.flatMap (leftJoinRows s)

/-- Column `f.factrating` of a left-join row. -/
def factratingColumn : Option Fact → SqlValue
  | none => .null
  | some f => .text f.FactRating

/-- Clause `GROUP BY e.id`: one group per distinct id, holding the join rows of that id. -/
def groupByEmployeeID (rows : List (Employee × Option Fact)) :
    List (List (Employee × Option Fact)) :=
  ((rows.map fun p => p.1.ID).dedup).map fun k => rows.filter fun p => p.1.ID = k

/-- Result columns `e.fullname, SUM(CASE ... END) AS total_rating` of one group; the bare
column `e.fullname` is read from a row of the group. -/
def aggregateGroup : List (Employee × Option Fact) → Option (String × Int)
  | [] => none
  | p :: rest =>
    some (p.1.FullName, ((p :: rest).map fun q => caseFactrating (factratingColumn q.2)).sum)

/-- The aggregate of `showTopEmployees` before `ORDER BY` and `LIMIT` (main.go 583-589). -/
def topAggregate (s : Store) : List (String × Int) :=
  (groupByEmployeeID (employeeLeftJoinFact s)).filterMap aggregateGroup

/-- Clause `ORDER BY total_rating DESC` or `ASC`. -/
def orderByTotalRating (order : String) (rows : List (String × Int)) : List (String × Int) :=
  if order = "DESC" then List.insertionSort (fun a b : String × Int => b.2 ≤ a.2) rows
  else List.insertionSort (fun a b : String × Int => a.2 ≤ b.2) rows

/-- The whole query of `showTopEmployees` (main.go 582-592), `LIMIT 3` included. -/
def selectTopEmployees (s : Store) (order : String) : List (String × Int) :=
  (orderByTotalRating order (topAggregate s)).take 3

/-! ## Operations of `main.go` -/

/-- Loop `for rows.Next()` of `getEmployees`. -/
def scanEmployee (row : Row) : Except ScanError Employee :=
  match row with
  | [id, fullName, position] => do
    let i ← scanInt 0 id
    let n ← scanString 1 fullName
    let p ← scanString 2 position
    pure { ID := i, FullName := n, Position := p }
  | _ => .error (.arity row.length 3)

/-- Function `getEmployees` (main.go 134-153). -/
def getEmployees (s : Store) : Except ScanError (List Employee) :=
  (selectStarEmployee s).mapM scanEmployee

/-- Call `rows.Scan` of `getFacts` and `getTenLastFactsForEmployee`: eight destinations. -/
def scanFactEmployee (row : Row) : Except ScanError (Fact × Employee) :=
  match row with
  | [fid, text, dateAdded, factRating, employeeID, eid, fullName, position] => do
    let a ← scanInt 0 fid
    let b ← scanString 1 text
    let c ← scanTime 2 dateAdded
    let d ← scanString 3 factRating
    let e ← scanInt 4 employeeID
    let f ← scanInt 5 eid
    let g ← scanString 6 fullName
    let h ← scanString 7 position
    pure ({ ID := a, Text := b, DateAdded := c, FactRating := d, EmployeeID := e },
      { ID := f, FullName := g, Position := h })
  | _ => .error (.arity row.length 8)

/-- Row `{f.ID, f.Text, f.DateAdded.Format("2006-01-02"), f.FactRating, e.FullName}`
appended to the table by `getFacts`. -/
def listingRow (formatDate : Time → String) (p : Fact × Employee) : List SqlValue :=
  [.integer p.1.ID, .text p.1.Text, .text (formatDate p.1.DateAdded), .text p.1.FactRating,
    .text p.2.FullName]

/-- Header of the table of `getFacts`. -/
def listingHeader : List String :=
  ["ID", "Текст", "Дата Добавления", "Оценка", "Сотрудник"]

/-- Function `getFacts` (main.go 155-179): the rendered table, or the panic of `Scan`. -/
def getFacts (formatDate : Time → String) (s : Store) : Except ScanError (List Event) := do
  let scanned ← (selectStarFactJoinEmployee s).mapM scanFactEmployee
  pure [.table listingHeader (scanned.map (listingRow formatDate))]

/-- Function `deleteAllFacts` (main.go 181-200). -/
def deleteAllFacts (s : Store) (answer : PromptResult) : Store × List Event :=
  let shown := Event.select "Точно удалить все факты?" ["Нет", "Да"]
  match answer with
  | .error err => (s, [shown, .stdout ("Выбор отменен " ++ err ++ "\n")])
  | .ok result =>
    if result = "Да" then
      ({ s with fact := [] }, [shown, .stdout "Все факты были удалены.\n"])
    else (s, [shown])

/-- Function `deleteAllEmployees` (main.go 202-225): `DELETE FROM employee`, then
`DELETE FROM fact`. -/
def deleteAllEmployees (s : Store) (answer : PromptResult) : Store × List Event :=
  let shown := Event.select "Точно удалить всех сотрудников и связанные факты?" ["Нет", "Да"]
  match answer with
  | .error err => (s, [shown, .stdout ("Выбор отменен " ++ err ++ "\n")])
  | .ok result =>
    if result = "Да" then
      let s1 : Store := { s with employee := [] }
      let s2 : Store := { s1 with fact := [] }
      (s2, [shown, .stdout "Все сотрудники и связанные с ними факты были удалены.\n"])
    else (s, [shown])

/-- Call `rows.Scan(&fullName, &factRating)` of `calculateEmployeeRatings`. -/
def scanFullnameFactrating (row : Row) : Except ScanError (String × String) :=
  match row with
  | [fullName, factRating] => do
    let n ← scanString 0 fullName
    let r ← scanString 1 factRating
    pure (n, r)
  | _ => .error (.arity row.length 2)

/-- Body of the loop of `calculateEmployeeRatings` (main.go 250-260):
`employeeRatings[fullName] += ratingValue`. -/
def ratingsStep (employeeRatings : GoMap Int) (row : String × String) : GoMap Int :=
  employeeRatings.set row.1 (GoMap.index 0 employeeRatings row.1 + ratingValue row.2)

/-- The loop of `calculateEmployeeRatings` over the scanned rows, from the empty map. -/
def ratingsOfRows (rows : List (String × String)) : GoMap Int :=
  rows.foldl ratingsStep []

/-- Function `calculateEmployeeRatings` (main.go 227-264). -/
def calculateEmployeeRatings (s : Store) : Except ScanError (GoMap Int) := do
  let scanned ← (selectFullnameFactrating s).mapM scanFullnameFactrating
  pure (ratingsOfRows scanned)

/-- Call `rows.Scan(&dateAdded, &factRatingStr)` of `getEmployeeRatingHistory`. -/
def scanHistory (row : Row) : Except ScanError (Time × String) :=
  match row with
  | [dateAdded, factRating] => do
    let d ← scanTime 0 dateAdded
    let r ← scanString 1 factRating
    pure (d, r)
  | _ => .error (.arity row.length 2)

/-- Body of the loop of `getEmployeeRatingHistory` (main.go 382-393) on the pair
`(totalRating, history)`. -/
def historyStep (state : Int × List Int) (row : Time × String) : Int × List Int :=
  let totalRating := state.1 + factRatingFloat row.2
  (totalRating, state.2 ++ [totalRating])

/-- The loop of `getEmployeeRatingHistory` over the scanned rows. -/
def historyOfRows (rows : List (Time × String)) : List Int :=
  (rows.foldl historyStep (0, [])).2

/-- Function `getEmployeeRatingHistory` (main.go 354-397). -/
def getEmployeeRatingHistory (s : Store) (employeeID : Int) : Except ScanError (List Int) := do
  let scanned ← (selectHistory s employeeID).mapM scanHistory
  pure (historyOfRows scanned)

/-- Call `rows.Scan(&id, &text, &dateAdded, &factRating, &employeeName)` of
`exportFactsToCSV`: five destinations. -/
def scanExport (row : Row) : Except ScanError (Int × String × Time × String × String) :=
  match row with
  | [id, text, dateAdded, factRating, employeeName] => do
    let a ← scanInt 0 id
    let b ← scanString 1 text
    let c ← scanTime 2 dateAdded
    let d ← scanString 3 factRating
    let e ← scanString 4 employeeName
    pure (a, b, c, d, e)
  | _ => .error (.arity row.length 5)

/-- Record written by `exportFactsToCSV` for one scanned row (main.go 475). -/
def exportRecord (formatDate : Time → String) (r : Int × String × Time × String × String) :
    List String :=
  [toString r.1, r.2.1, formatDate r.2.2.1, r.2.2.2.1, r.2.2.2.2]

/-- Header record of `facts.csv` (main.go 463). -/
def exportHeader : List String :=
  ["ID", "Текст Факта", "Дата Добавления", "Оценка Факта", "Сотрудник"]

/-- Loop `for rows.Next()` of `exportFactsToCSV`: the records written so far, and whether
the loop ended or `Scan` made it panic. -/
def exportLoop (formatDate : Time → String) :
    List Row → List (List String) → List (List String) × Except ScanError Unit
  | [], written => (written, .ok ())
  | row :: rest, written =>
    match scanExport row with
    | .error err => (written, .error err)
    | .ok r => exportLoop formatDate rest (written ++ [exportRecord formatDate r])

/-- Function `exportFactsToCSV` (main.go 445-479): the content of `facts.csv` once the
deferred `writer.Flush()` has run, and the trace on normal return or the panic. -/
def exportFactsToCSV (formatDate : Time → String) (s : Store) :
    List (List String) × Except ScanError (List Event) :=
  let r := exportLoop formatDate (selectStarFactJoinEmployee s) [exportHeader]
  match r.2 with
  | .error err => (r.1, .error err)
  | .ok _ => (r.1, .ok [.stdout "Факты были экспортированы в файл 'facts.csv'\n",
      .file "facts.csv" r.1])

/-- Function `deleteFact` (main.go 536-542): `DELETE FROM fact WHERE id=?`. -/
def deleteFact (s : Store) (factId : Int) : Store × List Event :=
  ({ s with fact := s.fact.filter fun f => ¬ f.ID = factId }, [.stdout "Факты был удален.\n"])

/-- Call `rows.Scan(&fullname, &totalRating)` of `showTopEmployees`. -/
def scanTop (row : Row) : Except ScanError (String × Int) :=
  match row with
  | [fullname, totalRating] => do
    let n ← scanString 0 fullname
    let t ← scanInt 1 totalRating
    pure (n, t)
  | _ => .error (.arity row.length 2)

/-- Line `fmt.Printf("%s: %d\n", fullname, totalRating)` of `showTopEmployees`. -/
def topLine (r : String × Int) : Event :=
  .stdout (r.1 ++ ": " ++ toString r.2 ++ "\n")

/-- Loop of `showTopEmployees` (main.go 602-610): one line per row, returning at the first
row that does not scan. -/
def showTopLoop : List Row → List Event
  | [] => []
  | row :: rest =>
    match scanTop row with
    | .error err => [.scanFailure err]
    | .ok r => topLine r :: showTopLoop rest

/-- Function `showTopEmployees` (main.go 574-611): what it writes to standard output. -/
def showTopEmployees (s : Store) (ratingType : String) : List Event :=
  let order := if ratingType = "положительная" then "DESC" else "ASC"
  let rows : List Row := (selectTopEmployees s order).map fun r => [.text r.1, .integer r.2]
  .stdout ("Топ 3 сотрудников по " ++ ratingType ++ " рейтингу:\n") :: showTopLoop rows

/-- Rowid given by an AUTOINCREMENT key: one more than the largest id ever used. -/
def nextRowid (seq : Int) (ids : List Int) : Int :=
  ids.foldl max seq + 1

/-- Function `addEmployee` (main.go 68-75). -/
def addEmployee (s : Store) (fullName position : String) : Store × List Event :=
  let id := nextRowid s.employeeSeq (s.employee.map Employee.ID)
  ({ s with employee := s.employee ++ [{ ID := id, FullName := fullName, Position := position }],
            employeeSeq := id },
    [.stdout ("Добавлен сотрудник: " ++ fullName ++ "\n")])

/-- Predicate `unicode.IsSpace`, by which `strings.TrimSpace` trims. -/
def isSpace (c : Char) : Bool :=
  let n := c.toNat
  (9 ≤ n && n ≤ 13) || n = 32 || n = 133 || n = 160 || n = 5760 || (8192 ≤ n && n ≤ 8202)
    || n = 8232 || n = 8233 || n = 8239 || n = 8287 || n = 12288

/-- Function `strings.TrimSpace`. -/
def trimSpace (s : String) : String :=
  String.mk ((s.toList.dropWhile isSpace).reverse.dropWhile isSpace).reverse

/-- The labels `factRatings` that `addFact` offers (main.go 113). -/
def factRatings : List String := ["нейтральная", "положительная", "отрицательная"]

/-- What the user supplies to `addFact`, and the clock. -/
structure AddFactInput where
  employeeAnswer : PromptResult
  line : String
  ratingAnswer : PromptResult
  now : Time

/-- Zero value of `Employee`. -/
def Employee.zero : Employee := { ID := 0, FullName := "", Position := "" }

/-- Item `fmt.Sprintf("%s (%s)", employee.FullName, employee.Position)` of the employee
prompt of `addFact`. -/
def employeeItem (e : Employee) : String :=
  e.FullName ++ " (" ++ e.Position ++ ")"

/-- Function `addFact` (main.go 77-132). -/
def addFact (s : Store) (input : AddFactInput) : Except ScanError (Store × List Event) := do
  let employees ← getEmployees s
  if employees.length = 0 then
    pure (s, [.stdout "Нет доступных сотрудников для добавления факта.\n"])
  else
    let employeeNames := employees.map employeeItem
    let employeeMap : GoMap Employee :=
      employees.foldl (fun m e => m.set (employeeItem e) e) []
    let shown1 := Event.select "Выберите сотрудника" employeeNames
    match input.employeeAnswer with
    | .error err => pure (s, [shown1, .stdout ("Выбор отменен " ++ err ++ "\n")])
    | .ok result =>
      let selectedEmployee := GoMap.index Employee.zero employeeMap result
      let text := trimSpace input.line
      let shown2 := Event.select "Выберите оценку факта" factRatings
      let asked := [shown1, .stdout "Введите текст факта: ", .readLine, shown2]
      match input.ratingAnswer with
      | .error err => pure (s, asked ++ [.stdout ("Выбор отменен " ++ err ++ "\n")])
      | .ok factRating =>
        let id := nextRowid s.factSeq (s.fact.map Fact.ID)
        let row := Fact.mk id text input.now factRating selectedEmployee.ID
        pure ({ s with fact := s.fact ++ [row], factSeq := id },
          asked ++ [.stdout ("Добавлен факт: " ++ text ++ "\n")])

/-- Sum of the deltas of the facts whose `employeeid` is the given id, over the `fact`
table in storage order. -/
def totalOfEmployee (s : Store) (employeeID : Int) : Int :=
  ((s.fact.filter fun f => f.EmployeeID = employeeID).map fun f => ratingValue f.FactRating).sum

/-- Operation `runningHistory` as the rating engine is specified: the employee's facts
taken in ascending order of the instant at which they were added, and for each i the sum
of the deltas of the first i+1 of them. -/
def runningHistoryByInstant (s : Store) (employeeID : Int) : List Int :=
  let ordered := List.insertionSort
    (fun a b : Fact => a.DateAdded.unixNano ≤ b.DateAdded.unixNano)
    (s.fact.filter fun f => f.EmployeeID = employeeID)
  (List.range ordered.length).map fun i =>
    ((ordered.take (i + 1)).map fun f => ratingValue f.FactRating).sum

/-! ## Example stores -/

/-- Noon of a day of January 2024 in a zone three hours east of UTC. -/
def noonOf (day : Nat) : Time :=
  { year := 2024, month := 1, day := day, hour := 12, minute := 0, second := 0,
    nanosecond := 0, offset := 10800 }

/-- Three facts of one employee, positive, negative, positive on successive days. -/
def ivanovStore : Store :=
  { employee := [{ ID := 1, FullName := "Ivanov", Position := "dev" }],
    fact := [{ ID := 1, Text := "a", DateAdded := noonOf 1, FactRating := "положительная", EmployeeID := 1 },
             { ID := 2, Text := "b", DateAdded := noonOf 2, FactRating := "отрицательная", EmployeeID := 1 },
             { ID := 3, Text := "c", DateAdded := noonOf 3, FactRating := "положительная", EmployeeID := 1 }],
    employeeSeq := 1,
    factSeq := 3 }

/-- Four employees with totals 1, -1, 0 (no fact) and 2. -/
def fourStore : Store :=
  { employee := [{ ID := 1, FullName := "A", Position := "p" },
                 { ID := 2, FullName := "B", Position := "p" },
                 { ID := 3, FullName := "C", Position := "p" },
                 { ID := 4, FullName := "D", Position := "p" }],
    fact := [{ ID := 1, Text := "a", DateAdded := noonOf 1, FactRating := "положительная", EmployeeID := 1 },
             { ID := 2, Text := "b", DateAdded := noonOf 2, FactRating := "отрицательная", EmployeeID := 2 },
             { ID := 3, Text := "c", DateAdded := noonOf 3, FactRating := "положительная", EmployeeID := 4 },
             { ID := 4, Text := "d", DateAdded := noonOf 4, FactRating := "положительная", EmployeeID := 4 },
             { ID := 5, Text := "e", DateAdded := noonOf 5, FactRating := "нейтральная", EmployeeID := 4 }],
    employeeSeq := 4,
    factSeq := 5 }

/-- One employee with two facts added twenty minutes apart across the end of summer
time: a negative one at 02:50 two hours east of UTC, then a positive one at 02:10 one
hour east of UTC. -/
def fallBackStore : Store :=
  { employee := [{ ID := 1, FullName := "Ivanov", Position := "dev" }],
    fact := [{ ID := 1, Text := "a", FactRating := "отрицательная", EmployeeID := 1,
               DateAdded := { year := 2024, month := 10, day := 27, hour := 2, minute := 50,
                              second := 0, nanosecond := 0, offset := 7200 } },
             { ID := 2, Text := "b", FactRating := "положительная", EmployeeID := 1,
               DateAdded := { year := 2024, month := 10, day := 27, hour := 2, minute := 10,
                              second := 0, nanosecond := 0, offset := 3600 } }],
    employeeSeq := 1,
    factSeq := 2 }

/-- An empty database. -/
def emptyStore : Store :=
  { employee := [], fact := [], employeeSeq := 0, factSeq := 0 }

/-! ## Scanning the rows of the queries -/

theorem mapM_scan_map {α β : Type} (enc : α → Row) (f : Row → Except ScanError β) (g : α → β)
    (l : List α) (h : ∀ a, f (enc a) = .ok (g a)) : (l.map enc).mapM f = .ok (l.map g) := by
  induction l with
  | nil => rfl
  | cons a l ih =>
    rw [List.map_cons, List.mapM_cons, h a, ih]
    rfl

theorem getEmployees_eq (s : Store) : getEmployees s = .ok s.employee := by
  unfold getEmployees selectStarEmployee
  rw [mapM_scan_map employeeColumns scanEmployee id s.employee (fun _ => rfl), List.map_id]

theorem getFacts_eq (formatDate : Time → String) (s : Store) :
    getFacts formatDate s
      = .ok [.table listingHeader ((factJoinEmployee s).map (listingRow formatDate))] := by
  unfold getFacts selectStarFactJoinEmployee
  rw [mapM_scan_map (fun p : Fact × Employee => factColumns p.1 ++ employeeColumns p.2)
    scanFactEmployee id (factJoinEmployee s) (fun _ => rfl), List.map_id]
  rfl

theorem calculateEmployeeRatings_eq (s : Store) :
    calculateEmployeeRatings s
      = .ok (ratingsOfRows ((factJoinEmployee s).map fun p => (p.2.FullName, p.1.FactRating))) := by
  unfold calculateEmployeeRatings selectFullnameFactrating
  rw [mapM_scan_map (fun p : Fact × Employee => [SqlValue.text p.2.FullName, .text p.1.FactRating])
    scanFullnameFactrating (fun p => (p.2.FullName, p.1.FactRating)) (factJoinEmployee s)
    (fun _ => rfl)]
  rfl

theorem getEmployeeRatingHistory_eq (s : Store) (employeeID : Int) :
    getEmployeeRatingHistory s employeeID
      = .ok (historyOfRows ((factsOfEmployeeByDate s employeeID).map
          fun f => (f.DateAdded, f.FactRating))) := by
  unfold getEmployeeRatingHistory selectHistory
  rw [mapM_scan_map (fun f : Fact => [SqlValue.datetime f.DateAdded, .text f.FactRating])
    scanHistory (fun f => (f.DateAdded, f.FactRating)) (factsOfEmployeeByDate s employeeID)
    (fun _ => rfl)]
  rfl

/-! ## The rating-to-delta lookup -/

/-- Claim C4: the integer switch is the lookup +1 for the positive label, -1 for the
negative one and 0 for every other string; the float switch and the SQL `CASE` compute
the same function of the rating string (the `CASE` also gives 0 on `NULL`); and the
three labels offered by `addFact` go to 0, +1 and -1 under each of the three. -/
theorem rating_delta_lookup (r : String) :
    ratingValue r
        = (if r = "положительная" then 1 else if r = "отрицательная" then -1 else 0)
      ∧ factRatingFloat r = ratingValue r
      ∧ caseFactrating (.text r) = ratingValue r
      ∧ caseFactrating .null = 0
      ∧ ratingValue "положительная" = 1
      ∧ ratingValue "отрицательная" = -1
      ∧ ratingValue "нейтральная" = 0
      ∧ factRatings.map ratingValue = [0, 1, -1]
      ∧ factRatings.map factRatingFloat = [0, 1, -1]
      ∧ factRatings.map (fun l => caseFactrating (.text l)) = [0, 1, -1] := by
  refine ⟨rfl, rfl, rfl, rfl, ?_, ?_, ?_, ?_, ?_, ?_⟩ <;> decide

/-! ## Deleting -/

/-- Claim C6: after `deleteAllEmployees` with the answer "Да" both tables are empty, the
join read by `getFacts` has no row and `getFacts` returns an empty table without a
panic; with the answer "Нет" or a cancelled prompt the store is the one before. -/
theorem deleteAllEmployees_confirmed (formatDate : Time → String) (s : Store) (err : String) :
    (deleteAllEmployees s (.ok "Да")).1.employee = []
      ∧ (deleteAllEmployees s (.ok "Да")).1.fact = []
      ∧ selectStarFactJoinEmployee (deleteAllEmployees s (.ok "Да")).1 = []
      ∧ getFacts formatDate (deleteAllEmployees s (.ok "Да")).1 = .ok [.table listingHeader []]
      ∧ (deleteAllEmployees s (.ok "Нет")).1 = s
      ∧ (deleteAllEmployees s (.error err)).1 = s := by
  have hyes : deleteAllEmployees s (.ok "Да")
      = ({ s with employee := [], fact := [] },
        [Event.select "Точно удалить всех сотрудников и связанные факты?" ["Нет", "Да"],
          .stdout "Все сотрудники и связанные с ними факты были удалены.\n"]) := by
    simp [deleteAllEmployees]
  have hno : deleteAllEmployees s (.ok "Нет")
      = (s, [Event.select "Точно удалить всех сотрудников и связанные факты?" ["Нет", "Да"]]) := by
    have hne : ¬ ("Нет" : String) = "Да" := by decide
    simp [deleteAllEmployees, hne]
  refine ⟨by rw [hyes], by rw [hyes], ?_, ?_, by rw [hno], rfl⟩
  · rw [hyes]; rfl
  · rw [getFacts_eq, hyes]; rfl

theorem filter_ne_of_forall_ne (l : List Fact) (factId : Int) (h : ∀ f ∈ l, f.ID ≠ factId) :
    (l.filter fun f => ¬ f.ID = factId) = l := by
  rw [List.filter_eq_self]
  intro f hf
  simpa using h f hf

theorem filter_ne_eq_erase (l : List Fact) (f : Fact) (hnd : (l.map Fact.ID).Nodup)
    (hf : f ∈ l) : (l.filter fun g => ¬ g.ID = f.ID) = l.erase f := by
  induction l with
  | nil => cases hf
  | cons a l ih =>
    rw [List.map_cons, List.nodup_cons] at hnd
    by_cases hfa : a = f
    · subst hfa
      rw [List.erase_cons_head, List.filter_cons]
      simp only [not_true_eq_false, decide_False, Bool.false_eq_true, if_false]
      apply filter_ne_of_forall_ne
      intro g hg hid
      exact hnd.1 (hid ▸ List.mem_map_of_mem Fact.ID hg)
    · have hfl : f ∈ l := by
        rcases List.mem_cons.mp hf with h | h
        · exact absurd h.symm hfa
        · exact h
      have hid : ¬ a.ID = f.ID := fun h =>
        hnd.1 (h ▸ List.mem_map_of_mem Fact.ID hfl)
      rw [List.filter_cons, List.erase_cons_tail (by simpa using hfa), ih hnd.2 hfl]
      simp [hid]

/-- Claim C7: in a store whose ids are primary keys, `deleteFact` leaves the employee
table and both counters as they were; its fact table contains exactly the old facts
whose id differs from the argument, in their old order; when a fact has the id, the new
table is the old one with that fact erased; when none has, the store is unchanged; and
the call returns with its message. -/
theorem deleteFact_frame (s : Store) (factId : Int) (hpk : s.PrimaryKeys) :
    (deleteFact s factId).1.employee = s.employee
      ∧ (deleteFact s factId).1.employeeSeq = s.employeeSeq
      ∧ (deleteFact s factId).1.factSeq = s.factSeq
      ∧ (∀ g, g ∈ (deleteFact s factId).1.fact ↔ g ∈ s.fact ∧ g.ID ≠ factId)
      ∧ (deleteFact s factId).1.fact.Sublist s.fact
      ∧ (∀ f ∈ s.fact, f.ID = factId → (deleteFact s factId).1.fact = s.fact.erase f)
      ∧ ((∀ f ∈ s.fact, f.ID ≠ factId) → (deleteFact s factId).1 = s)
      ∧ (deleteFact s factId).2 = [.stdout "Факты был удален.\n"] := by
  refine ⟨rfl, rfl, rfl, ?_, ?_, ?_, ?_, rfl⟩
  · intro g
    simp [deleteFact, List.mem_filter]
  · exact List.filter_sublist _
  · intro f hf hid
    subst hid
    exact filter_ne_eq_erase s.fact f hpk.2 hf
  · intro h
    show ({ s with fact := s.fact.filter fun f => ¬ f.ID = factId } : Store) = s
    rw [filter_ne_of_forall_ne s.fact factId h]

theorem deleteFact_frame_witness :
    ivanovStore.PrimaryKeys
      ∧ (deleteFact ivanovStore 2).1.fact
        = [{ ID := 1, Text := "a", DateAdded := noonOf 1, FactRating := "положительная", EmployeeID := 1 },
           { ID := 3, Text := "c", DateAdded := noonOf 3, FactRating := "положительная", EmployeeID := 1 }]
      ∧ (deleteFact ivanovStore 7).1 = ivanovStore :=
  ⟨by decide,
    ((deleteFact_frame ivanovStore 2 (by decide)).2.2.2.2.2.1
      { ID := 2, Text := "b", DateAdded := noonOf 2, FactRating := "отрицательная", EmployeeID := 1 }
      (by decide) rfl).trans (by decide),
    (deleteFact_frame ivanovStore 7 (by decide)).2.2.2.2.2.2.1 (by decide)⟩

/-! ## Adding a fact -/

/-- Claim C8: when the employee table is empty, `addFact` returns normally with the
store it was given, and its whole trace is the one message that no employee is
available: no prompt is shown, no line is read and no row is inserted. -/
theorem addFact_no_employees (s : Store) (input : AddFactInput) (h : s.employee = []) :
    addFact s input
      = .ok (s, [.stdout "Нет доступных сотрудников для добавления факта.\n"]) := by
  unfold addFact
  rw [getEmployees_eq, h]
  rfl

theorem addFact_no_employees_witness :
    emptyStore.employee = []
      ∧ addFact emptyStore
          { employeeAnswer := .ok "x", line := "y", ratingAnswer := .ok "положительная", now := noonOf 5 }
        = .ok (emptyStore, [.stdout "Нет доступных сотрудников для добавления факта.\n"]) :=
  ⟨rfl, addFact_no_employees emptyStore _ rfl⟩

/-! ## CSV export -/

theorem exportFactsToCSV_eq (formatDate : Time → String) (s : Store) :
    exportFactsToCSV formatDate s
      = if factJoinEmployee s = [] then
          ([exportHeader], .ok [.stdout "Факты были экспортированы в файл 'facts.csv'\n",
            .file "facts.csv" [exportHeader]])
        else ([exportHeader], .error (.arity 8 5)) := by
  unfold exportFactsToCSV selectStarFactJoinEmployee
  cases factJoinEmployee s with
  | nil => rfl
  | cons p rest => rfl

/-- Claim C5, as the code behaves: on a store with one employee and three facts
`exportFactsToCSV` panics at its first `rows.Scan`, which offers five destinations to
the eight columns of `SELECT *`, and `facts.csv` holds the header alone, while `getFacts`
lists the three rows of the same join; in general the export returns normally exactly
when the join is empty. -/
theorem exportFactsToCSV_scan_arity (formatDate : Time → String) :
    exportFactsToCSV formatDate ivanovStore = ([exportHeader], .error (.arity 8 5))
      ∧ getFacts formatDate ivanovStore
        = .ok [.table listingHeader
            [[.integer 1, .text "a", .text (formatDate (noonOf 1)), .text "положительная", .text "Ivanov"],
             [.integer 2, .text "b", .text (formatDate (noonOf 2)), .text "отрицательная", .text "Ivanov"],
             [.integer 3, .text "c", .text (formatDate (noonOf 3)), .text "положительная", .text "Ivanov"]]]
      ∧ ∀ s : Store, exportFactsToCSV formatDate s
          = if factJoinEmployee s = [] then
              ([exportHeader], .ok [.stdout "Факты были экспортированы в файл 'facts.csv'\n",
                .file "facts.csv" [exportHeader]])
            else ([exportHeader], .error (.arity 8 5)) := by
  refine ⟨?_, ?_, exportFactsToCSV_eq formatDate⟩
  · rw [exportFactsToCSV_eq]
    have h : factJoinEmployee ivanovStore ≠ [] := by decide
    rw [if_neg h]
  · rw [getFacts_eq]
    have h : factJoinEmployee ivanovStore
        = ivanovStore.fact.map fun f => (f, { ID := 1, FullName := "Ivanov", Position := "dev" }) := by
      decide
    rw [h]
    rfl

/-! ## Go maps -/

theorem GoMap.find?_set {β : Type} (m : GoMap β) (k key : String) (v : β) :
    (m.set k v).find? key = if k = key then some v else m.find? key := by
  induction m with
  | nil => simp [GoMap.set, GoMap.find?]
  | cons e rest ih =>
    obtain ⟨k0, w⟩ := e
    by_cases h0 : k0 = k
    · subst h0
      by_cases h1 : k0 = key <;> simp [GoMap.set, GoMap.find?, h1]
    · by_cases h1 : k0 = key
      · subst h1
        have : ¬ k = k0 := fun h => h0 h.symm
        simp [GoMap.set, GoMap.find?, h0, this]
      · simp [GoMap.set, GoMap.find?, h0, h1, ih]

theorem GoMap.mem_keys_set {β : Type} (m : GoMap β) (k key : String) (v : β) :
    key ∈ (m.set k v).keys ↔ key = k ∨ key ∈ m.keys := by
  induction m with
  | nil => simp [GoMap.set, GoMap.keys]
  | cons e rest ih =>
    obtain ⟨k0, w⟩ := e
    by_cases h0 : k0 = k
    · subst h0
      simp [GoMap.set, GoMap.keys]
    · have ih2 : key ∈ List.map Prod.fst (GoMap.set rest k v)
          ↔ key = k ∨ key ∈ List.map Prod.fst rest := ih
      simp only [GoMap.set, GoMap.keys, h0, if_false, List.map_cons, List.mem_cons, ih2]
      tauto

theorem GoMap.nodup_keys_set {β : Type} (m : GoMap β) (k : String) (v : β)
    (h : m.keys.Nodup) : (m.set k v).keys.Nodup := by
  induction m with
  | nil => simp [GoMap.set, GoMap.keys]
  | cons e rest ih =>
    obtain ⟨k0, w⟩ := e
    have h2 : k0 ∉ GoMap.keys rest ∧ (GoMap.keys rest).Nodup := List.nodup_cons.mp h
    by_cases h0 : k0 = k
    · subst h0
      simpa [GoMap.set, GoMap.keys] using h
    · have hk : GoMap.keys (GoMap.set ((k0, w) :: rest) k v)
          = k0 :: GoMap.keys (GoMap.set rest k v) := by
        simp [GoMap.set, GoMap.keys, h0]
      rw [hk, List.nodup_cons]
      refine ⟨?_, ih h2.2⟩
      rw [GoMap.mem_keys_set]
      rintro (h | h)
      · exact h0 h
      · exact h2.1 h

/-! ## Totals by name -/

theorem foldl_ratingsStep_find (rows : List (String × String)) (m : GoMap Int) (name : String) :
    (rows.foldl ratingsStep m).find? name
      = if name ∈ rows.map Prod.fst then
          some (GoMap.index 0 m name
            + ((rows.filter fun r => r.1 = name).map fun r => ratingValue r.2).sum)
        else m.find? name := by
  induction rows generalizing m with
  | nil => simp
  | cons r rows ih =>
    rw [List.foldl_cons, ih]
    by_cases hr : r.1 = name
    · have h1 : GoMap.index 0 (ratingsStep m r) name = GoMap.index 0 m name + ratingValue r.2 := by
        simp [GoMap.index, ratingsStep, GoMap.find?_set, hr]
      have h2 : (ratingsStep m r).find? name = some (GoMap.index 0 m name + ratingValue r.2) := by
        simp [GoMap.index, ratingsStep, GoMap.find?_set, hr]
      by_cases hmem : name ∈ rows.map Prod.fst
      · simp [hmem, hr, h1, List.filter_cons, add_assoc]
      · have hnil : (rows.filter fun r => r.1 = name) = [] := by
          rw [List.filter_eq_nil_iff]
          intro a ha hname
          exact hmem (List.mem_map.mpr ⟨a, ha, by simpa using hname⟩)
        simp [hmem, hr, h2, List.filter_cons, hnil]
    · have h1 : GoMap.index 0 (ratingsStep m r) name = GoMap.index 0 m name := by
        simp [GoMap.index, ratingsStep, GoMap.find?_set, hr]
      have h2 : (ratingsStep m r).find? name = m.find? name := by
        simp [ratingsStep, GoMap.find?_set, hr]
      have hne : ¬ name = r.1 := fun h => hr h.symm
      have hmem : name ∈ r.1 :: rows.map Prod.fst ↔ name ∈ rows.map Prod.fst := by
        simp [hne]
      simp only [List.map_cons, hmem, h1, h2, List.filter_cons, hr, decide_False,
        Bool.false_eq_true, if_false]

theorem ratingsOfRows_find (rows : List (String × String)) (name : String) :
    (ratingsOfRows rows).find? name
      = if name ∈ rows.map Prod.fst then
          some ((rows.filter fun r => r.1 = name).map fun r => ratingValue r.2).sum
        else none := by
  unfold ratingsOfRows
  rw [foldl_ratingsStep_find]
  simp [GoMap.index, GoMap.find?]

theorem foldl_ratingsStep_nodup (rows : List (String × String)) (m : GoMap Int)
    (h : m.keys.Nodup) : (rows.foldl ratingsStep m).keys.Nodup := by
  induction rows generalizing m with
  | nil => exact h
  | cons r rows ih =>
    rw [List.foldl_cons]
    exact ih _ (GoMap.nodup_keys_set m _ _ h)

/-- Claim C1: the map `calculateEmployeeRatings` builds from a list of (fullName,
factRating) rows has one entry per key; a name is a key exactly when some row carries it,
and its value is the sum of `ratingValue` over the rows carrying it; a reordering of the
rows gives the same value for every name; and on a store the rows are those of the
fact-employee join, so that employees of one name, being one key, share the entry. -/
theorem calculateEmployeeRatings_sums (rows rows2 : List (String × String)) (name : String)
    (s : Store) (hperm : rows.Perm rows2) :
    (ratingsOfRows rows).keys.Nodup
      ∧ (ratingsOfRows rows).find? name
        = (if name ∈ rows.map Prod.fst then
            some ((rows.filter fun r => r.1 = name).map fun r => ratingValue r.2).sum
          else none)
      ∧ (ratingsOfRows rows2).find? name = (ratingsOfRows rows).find? name
      ∧ calculateEmployeeRatings s
        = .ok (ratingsOfRows ((factJoinEmployee s).map fun p => (p.2.FullName, p.1.FactRating))) := by
  refine ⟨foldl_ratingsStep_nodup rows [] List.nodup_nil, ratingsOfRows_find rows name, ?_,
    calculateEmployeeRatings_eq s⟩
  rw [ratingsOfRows_find, ratingsOfRows_find]
  have hmem : name ∈ rows2.map Prod.fst ↔ name ∈ rows.map Prod.fst :=
    (hperm.map Prod.fst).symm.mem_iff
  have hsum : ((rows2.filter fun r => r.1 = name).map fun r => ratingValue r.2).sum
      = ((rows.filter fun r => r.1 = name).map fun r => ratingValue r.2).sum :=
    (((hperm.filter _).map _).sum_eq).symm
  simp only [hmem, hsum]

theorem calculateEmployeeRatings_sums_witness :
    [("A", "положительная"), ("B", "отрицательная"), ("A", "положительная")].Perm
        [("B", "отрицательная"), ("A", "положительная"), ("A", "положительная")]
      ∧ (ratingsOfRows [("A", "положительная"), ("B", "отрицательная"),
          ("A", "положительная")]).find? "A" = some 2
      ∧ (ratingsOfRows [("B", "отрицательная"), ("A", "положительная"),
          ("A", "положительная")]).find? "A" = some 2 :=
  have hp : [("A", "положительная"), ("B", "отрицательная"), ("A", "положительная")].Perm
      [("B", "отрицательная"), ("A", "положительная"), ("A", "положительная")] :=
    List.Perm.swap _ _ _
  have h := calculateEmployeeRatings_sums _ _ "A" emptyStore hp
  ⟨hp, h.2.1.trans (by decide), h.2.2.1.trans (h.2.1.trans (by decide))⟩

/-! ## Running history -/

theorem foldl_historyStep (rows : List (Time × String)) (total : Int) (history : List Int) :
    rows.foldl historyStep (total, history)
      = (total + (rows.map fun r => factRatingFloat r.2).sum,
          history ++ (List.range rows.length).map fun i =>
            total + ((rows.take (i + 1)).map fun r => factRatingFloat r.2).sum) := by
  induction rows generalizing total history with
  | nil => simp
  | cons r rows ih =>
    rw [List.foldl_cons]
    show List.foldl historyStep
      (total + factRatingFloat r.2, history ++ [total + factRatingFloat r.2]) rows = _
    rw [ih, List.length_cons, List.range_succ_eq_map]
    simp [List.map_map, Function.comp_def, add_assoc]

theorem historyOfRows_eq (rows : List (Time × String)) :
    historyOfRows rows
      = (List.range rows.length).map fun i =>
          ((rows.take (i + 1)).map fun r => factRatingFloat r.2).sum := by
  unfold historyOfRows
  rw [foldl_historyStep]
  simp

theorem factsOfEmployeeByDate_perm (s : Store) (employeeID : Int) :
    (factsOfEmployeeByDate s employeeID).Perm
      (s.fact.filter fun f => f.EmployeeID = employeeID) :=
  List.perm_insertionSort _ _

theorem lexLE_total (a b : List Nat) : lexLE a b = true ∨ lexLE b a = true := by
  induction a generalizing b with
  | nil => exact Or.inl rfl
  | cons x xs ih =>
    cases b with
    | nil => exact Or.inr rfl
    | cons y ys =>
      rcases Nat.lt_trichotomy x y with h | h | h
      · left; simp [lexLE, h]
      · subst h
        simpa [lexLE] using ih ys
      · right; simp [lexLE, h]

theorem lexLE_trans (a b c : List Nat) (hab : lexLE a b = true) (hbc : lexLE b c = true) :
    lexLE a c = true := by
  induction a generalizing b c with
  | nil => rfl
  | cons x xs ih =>
    cases b with
    | nil => simp [lexLE] at hab
    | cons y ys =>
      cases c with
      | nil => simp [lexLE] at hbc
      | cons z zs =>
        simp only [lexLE] at hab hbc ⊢
        by_cases hxy : x < y
        · by_cases hyz : y < z
          · simp [Nat.lt_trans hxy hyz]
          · by_cases hzy : z < y
            · simp [hyz, hzy] at hbc
            · have : y = z := by omega
              subst this
              simp [hxy]
        · by_cases hyx : y < x
          · simp [hxy, hyx] at hab
          · have : x = y := by omega
            subst this
            simp only [hxy, if_false] at hab
            by_cases hxz : x < z
            · simp [hxz]
            · by_cases hzx : z < x
              · simp [hxz, hzx] at hbc
              · simp only [hxz, hzx, if_false] at hbc ⊢
                exact ih ys zs hab hbc

theorem textLE_total (a b : String) : textLE a b = true ∨ textLE b a = true := by
  unfold textLE
  exact lexLE_total _ _

theorem textLE_trans (a b c : String) (hab : textLE a b = true) (hbc : textLE b c = true) :
    textLE a c = true := by
  unfold textLE at hab hbc ⊢
  exact lexLE_trans _ _ _ hab hbc

theorem factsOfEmployeeByDate_sorted (s : Store) (employeeID : Int) :
    (factsOfEmployeeByDate s employeeID).Pairwise
      fun a b => textLE a.DateAdded.stored b.DateAdded.stored = true := by
  haveI : IsTotal Fact (fun a b => textLE a.DateAdded.stored b.DateAdded.stored = true) :=
    ⟨fun a b => textLE_total a.DateAdded.stored b.DateAdded.stored⟩
  haveI : IsTrans Fact (fun a b => textLE a.DateAdded.stored b.DateAdded.stored = true) :=
    ⟨fun a b c hab hbc =>
      textLE_trans a.DateAdded.stored b.DateAdded.stored c.DateAdded.stored hab hbc⟩
  exact List.sorted_insertionSort
    (fun a b : Fact => textLE a.DateAdded.stored b.DateAdded.stored = true) _

theorem getEmployeeRatingHistory_formula (s : Store) (employeeID : Int) :
    getEmployeeRatingHistory s employeeID
      = .ok ((List.range (s.fact.filter fun f => f.EmployeeID = employeeID).length).map fun i =>
          (((factsOfEmployeeByDate s employeeID).take (i + 1)).map
            fun f => ratingValue f.FactRating).sum) := by
  rw [getEmployeeRatingHistory_eq, historyOfRows_eq, List.length_map,
    (factsOfEmployeeByDate_perm s employeeID).length_eq]
  congr 1
  apply List.map_congr_left
  intro i _
  rw [← List.map_take, List.map_map]
  rfl

/-- Claim C2, as the code behaves: `getEmployeeRatingHistory` returns, without a panic,
the sequence whose length is the number n of the employee's facts, empty exactly when
there is none, and whose element i is the sum of the deltas of the first i+1 rows in the
order `ORDER BY dateadded` gives them, which is the byte order of the stored texts of the
local wall-clock time; for three facts on successive days that is 1, 0, 1, as is the
history in order of instant; but for a negative fact added at 02:50 two hours east of UTC
and a positive one added twenty minutes later at 02:10 one hour east of UTC the function
returns 1, 0, while the sums in ascending order of the instants are -1, 0. -/
theorem getEmployeeRatingHistory_stored_order (s : Store) (employeeID : Int) :
    (factsOfEmployeeByDate s employeeID).Perm (s.fact.filter fun f => f.EmployeeID = employeeID)
      ∧ (factsOfEmployeeByDate s employeeID).Pairwise
          (fun a b => textLE a.DateAdded.stored b.DateAdded.stored = true)
      ∧ getEmployeeRatingHistory s employeeID
        = .ok ((List.range (s.fact.filter fun f => f.EmployeeID = employeeID).length).map
            fun i => (((factsOfEmployeeByDate s employeeID).take (i + 1)).map
              fun f => ratingValue f.FactRating).sum)
      ∧ List.length <$> getEmployeeRatingHistory s employeeID
        = .ok (s.fact.filter fun f => f.EmployeeID = employeeID).length
      ∧ (getEmployeeRatingHistory s employeeID = .ok []
          ↔ (s.fact.filter fun f => f.EmployeeID = employeeID) = [])
      ∧ getEmployeeRatingHistory ivanovStore 1 = .ok [1, 0, 1]
      ∧ runningHistoryByInstant ivanovStore 1 = [1, 0, 1]
      ∧ fallBackStore.fact.map (fun f => f.DateAdded.stored)
        = ["2024-10-27 02:50:00+02:00", "2024-10-27 02:10:00+01:00"]
      ∧ fallBackStore.fact.map (fun f => f.DateAdded.unixNano)
        = [1729990200000000000, 1729991400000000000]
      ∧ getEmployeeRatingHistory fallBackStore 1 = .ok [1, 0]
      ∧ runningHistoryByInstant fallBackStore 1 = [-1, 0] := by
  refine ⟨factsOfEmployeeByDate_perm s employeeID, factsOfEmployeeByDate_sorted s employeeID,
    getEmployeeRatingHistory_formula s employeeID, ?_, ?_, by rfl, by decide, by decide,
    by decide, by rfl, by decide⟩
  · rw [getEmployeeRatingHistory_formula]
    show Except.ok _ = _
    simp
  · rw [getEmployeeRatingHistory_formula]
    constructor
    · intro h
      have h2 := congrArg (fun r => List.length <$> r) h
      simp only [Except.map, Functor.map, List.length_map, List.length_range,
        List.length_nil] at h2
      injection h2 with h3
      exact List.length_eq_zero.mp h3
    · intro h
      rw [h]
      rfl

/-! ## The fact-employee join under primary keys -/

theorem filter_id_eq_singleton (es : List Employee) (e : Employee)
    (hnd : (es.map Employee.ID).Nodup) (he : e ∈ es) :
    (es.filter fun x => e.ID = x.ID) = [e] := by
  induction es with
  | nil => cases he
  | cons a l ih =>
    rw [List.map_cons, List.nodup_cons] at hnd
    by_cases hae : a = e
    · subst hae
      have hnil : (l.filter fun x => a.ID = x.ID) = [] := by
        rw [List.filter_eq_nil_iff]
        intro x hx hid
        exact hnd.1 ((of_decide_eq_true hid) ▸ List.mem_map_of_mem Employee.ID hx)
      simp [List.filter_cons, hnil]
    · have hel : e ∈ l := by
        rcases List.mem_cons.mp he with h | h
        · exact absurd h.symm hae
        · exact h
      have hid : ¬ e.ID = a.ID := fun h =>
        hnd.1 (h ▸ List.mem_map_of_mem Employee.ID hel)
      simp [List.filter_cons, hid, ih hnd.2 hel]

theorem join_filter_name (es : List Employee) (e : Employee) (fs : List Fact)
    (hnd : (es.map Employee.ID).Nodup) (he : e ∈ es)
    (hname : ∀ x ∈ es, x.FullName = e.FullName → x = e) :
    ((fs.flatMap fun f => (es.filter fun x => f.EmployeeID = x.ID).map fun x => (f, x)).filter
        fun p => p.2.FullName = e.FullName)
      = (fs.filter fun f => f.EmployeeID = e.ID).map fun f => (f, e) := by
  induction fs with
  | nil => rfl
  | cons f fs ih =>
    rw [List.flatMap_cons, List.filter_append, ih, List.filter_cons]
    by_cases hid : f.EmployeeID = e.ID
    · rw [hid, filter_id_eq_singleton es e hnd he]
      simp
    · have hnil : (((es.filter fun x => f.EmployeeID = x.ID).map fun x => (f, x)).filter
          fun p => p.2.FullName = e.FullName) = [] := by
        rw [List.filter_eq_nil_iff]
        intro p hp hn
        obtain ⟨x, hx, rfl⟩ := List.mem_map.mp hp
        have hx2 := List.mem_filter.mp hx
        have hxe : x = e := hname x hx2.1 (of_decide_eq_true hn)
        exact hid (hxe ▸ of_decide_eq_true hx2.2)
      simp [hnil, hid]

theorem mem_map_fst_iff_filter_ne_nil (rows : List (String × String)) (name : String) :
    name ∈ rows.map Prod.fst ↔ (rows.filter fun r => r.1 = name) ≠ [] := by
  rw [Ne, List.filter_eq_nil_iff, List.mem_map]
  constructor
  · rintro ⟨r, hr, rfl⟩ h
    exact h r hr (by simp)
  · intro h
    by_contra hno
    apply h
    intro r hr hname
    exact hno ⟨r, hr, of_decide_eq_true hname⟩

theorem ratingRows_filter_name (s : Store) (e : Employee)
    (hnd : (s.employee.map Employee.ID).Nodup) (he : e ∈ s.employee)
    (hname : ∀ x ∈ s.employee, x.FullName = e.FullName → x = e) :
    (((factJoinEmployee s).map fun p => (p.2.FullName, p.1.FactRating)).filter
        fun r => r.1 = e.FullName)
      = (s.fact.filter fun f => f.EmployeeID = e.ID).map fun f => (e.FullName, f.FactRating) := by
  rw [List.filter_map]
  have h := join_filter_name s.employee e s.fact hnd he hname
  unfold factJoinEmployee
  rw [show ((fun r : String × String => decide (r.1 = e.FullName))
      ∘ fun p : Fact × Employee => (p.2.FullName, p.1.FactRating))
      = fun p : Fact × Employee => decide (p.2.FullName = e.FullName) from rfl, h, List.map_map]
  rfl

theorem calculateEmployeeRatings_find_unique (s : Store) (e : Employee)
    (hnd : (s.employee.map Employee.ID).Nodup) (he : e ∈ s.employee)
    (hname : ∀ x ∈ s.employee, x.FullName = e.FullName → x = e) :
    (ratingsOfRows ((factJoinEmployee s).map fun p => (p.2.FullName, p.1.FactRating))).find?
        e.FullName
      = if (s.fact.filter fun f => f.EmployeeID = e.ID) = [] then none
        else some (totalOfEmployee s e.ID) := by
  have hmem := mem_map_fst_iff_filter_ne_nil
    ((factJoinEmployee s).map fun p => (p.2.FullName, p.1.FactRating)) e.FullName
  rw [ratingRows_filter_name s e hnd he hname] at hmem
  rw [ratingsOfRows_find, ratingRows_filter_name s e hnd he hname]
  by_cases hnil : (s.fact.filter fun f => f.EmployeeID = e.ID) = []
  · have h2 : ¬ e.FullName
        ∈ ((factJoinEmployee s).map fun p => (p.2.FullName, p.1.FactRating)).map Prod.fst := by
      rw [hmem, hnil]
      simp
    rw [if_neg h2, if_pos hnil]
  · have h2 : e.FullName
        ∈ ((factJoinEmployee s).map fun p => (p.2.FullName, p.1.FactRating)).map Prod.fst := by
      rw [hmem]
      simpa using hnil
    rw [if_pos h2, if_neg hnil, List.map_map]
    rfl

theorem history_getLast (s : Store) (employeeID : Int)
    (hfact : (s.fact.filter fun f => f.EmployeeID = employeeID) ≠ []) :
    ((List.range (s.fact.filter fun f => f.EmployeeID = employeeID).length).map fun i =>
        (((factsOfEmployeeByDate s employeeID).take (i + 1)).map
          fun f => ratingValue f.FactRating).sum).getLast?
      = some (totalOfEmployee s employeeID) := by
  have hperm := factsOfEmployeeByDate_perm s employeeID
  have hlen : (s.fact.filter fun f => f.EmployeeID = employeeID).length ≠ 0 := by
    simpa [List.length_eq_zero] using hfact
  rw [List.getLast?_map, List.getLast?_range, if_neg hlen, Option.map_some']
  have hsub : (s.fact.filter fun f => f.EmployeeID = employeeID).length - 1 + 1
      = (factsOfEmployeeByDate s employeeID).length := by
    rw [hperm.length_eq]
    omega
  rw [hsub, List.take_length]
  exact congrArg some ((hperm.map _).sum_eq)

/-- Claim C9: in a store whose ids are primary keys, for an employee that has a fact and
whose fullName no other employee carries, `getEmployeeRatingHistory` of its id and
`calculateEmployeeRatings` both return, the history is not empty, and its last element
is the entry of the map at the employee's fullName, namely the sum of the deltas of the
employee's facts. -/
theorem history_last_eq_rating (s : Store) (e : Employee) (hpk : s.PrimaryKeys)
    (he : e ∈ s.employee) (hname : ∀ x ∈ s.employee, x.FullName = e.FullName → x = e)
    (hfact : ∃ f ∈ s.fact, f.EmployeeID = e.ID) :
    ∃ history ratings, getEmployeeRatingHistory s e.ID = .ok history
      ∧ calculateEmployeeRatings s = .ok ratings
      ∧ history ≠ []
      ∧ history.getLast? = ratings.find? e.FullName
      ∧ ratings.find? e.FullName = some (totalOfEmployee s e.ID) := by
  have hne : (s.fact.filter fun f => f.EmployeeID = e.ID) ≠ [] := by
    obtain ⟨f, hf, hid⟩ := hfact
    intro hnil
    have hmem : f ∈ s.fact.filter fun f => f.EmployeeID = e.ID :=
      List.mem_filter.mpr ⟨hf, by simpa using hid⟩
    rw [hnil] at hmem
    cases hmem
  have hfind := calculateEmployeeRatings_find_unique s e hpk.1 he hname
  rw [if_neg hne] at hfind
  have hlast := history_getLast s e.ID hne
  refine ⟨_, _, getEmployeeRatingHistory_formula s e.ID, calculateEmployeeRatings_eq s, ?_,
    hlast.trans hfind.symm, hfind⟩
  intro hnil
  rw [hnil] at hlast
  cases hlast

theorem history_last_eq_rating_witness :
    ivanovStore.PrimaryKeys
      ∧ ({ ID := 1, FullName := "Ivanov", Position := "dev" } : Employee) ∈ ivanovStore.employee
      ∧ (∃ f ∈ ivanovStore.fact, f.EmployeeID = 1)
      ∧ ∃ history ratings, getEmployeeRatingHistory ivanovStore 1 = .ok history
        ∧ calculateEmployeeRatings ivanovStore = .ok ratings
        ∧ history ≠ []
        ∧ history.getLast? = ratings.find? "Ivanov"
        ∧ ratings.find? "Ivanov" = some (totalOfEmployee ivanovStore 1) :=
  ⟨by decide, by decide, by decide,
    history_last_eq_rating ivanovStore { ID := 1, FullName := "Ivanov", Position := "dev" }
      (by decide) (by decide) (by decide) (by decide)⟩

/-! ## The aggregate of `showTopEmployees` under primary keys -/

theorem leftJoinRows_ne_nil (s : Store) (e : Employee) : leftJoinRows s e ≠ [] := by
  unfold leftJoinRows
  split
  · simp
  · rename_i hne
    simpa using hne

theorem leftJoinRows_fst (s : Store) (e : Employee) (p : Employee × Option Fact)
    (hp : p ∈ leftJoinRows s e) : p.1 = e := by
  unfold leftJoinRows at hp
  split at hp
  · simp only [List.mem_singleton] at hp
    rw [hp]
  · obtain ⟨f, _, rfl⟩ := List.mem_map.mp hp
    rfl

theorem totalOfEmployee_eq (s : Store) (e : Employee) :
    totalOfEmployee s e.ID
      = ((s.fact.filter fun f => e.ID = f.EmployeeID).map fun f => ratingValue f.FactRating).sum := by
  unfold totalOfEmployee
  congr 2
  apply List.filter_congr
  intro f _
  exact decide_eq_decide.mpr eq_comm

theorem aggregateGroup_leftJoinRows (s : Store) (e : Employee) :
    aggregateGroup (leftJoinRows s e) = some (e.FullName, totalOfEmployee s e.ID) := by
  rw [totalOfEmployee_eq]
  unfold leftJoinRows
  split
  · rename_i hnil
    rw [hnil]
    rfl
  · rename_i hne
    cases hfs : s.fact.filter fun f => e.ID = f.EmployeeID with
    | nil => exact absurd hfs hne
    | cons f rest =>
      simp only [List.map_cons, aggregateGroup, List.map_map, List.sum_cons]
      rfl

theorem union_of_all_eq (xs ys : List Int) (k : Int) (hne : xs ≠ []) (hall : ∀ x ∈ xs, x = k)
    (hk : k ∉ ys) : xs ∪ ys = k :: ys := by
  induction xs with
  | nil => exact absurd rfl hne
  | cons x xs ih =>
    have hx : x = k := hall x (List.mem_cons_self x xs)
    subst hx
    rw [List.cons_union]
    by_cases hxs : xs = []
    · subst hxs
      rw [List.nil_union, List.insert_of_not_mem hk]
    · rw [ih hxs (fun y hy => hall y (List.mem_cons_of_mem x hy))]
      exact List.insert_of_mem (List.mem_cons_self x ys)

theorem dedup_keys_flatMap (R : Employee → List (Employee × Option Fact)) (es : List Employee)
    (hR1 : ∀ e, R e ≠ []) (hR2 : ∀ e p, p ∈ R e → p.1 = e)
    (hnd : (es.map Employee.ID).Nodup) :
    ((es.flatMap R).map fun p => p.1.ID).dedup = es.map Employee.ID := by
  induction es with
  | nil => rfl
  | cons a l ih =>
    rw [List.map_cons, List.nodup_cons] at hnd
    rw [List.flatMap_cons, List.map_append, List.dedup_append, ih hnd.2, List.map_cons]
    apply union_of_all_eq
    · simpa using hR1 a
    · intro x hx
      obtain ⟨p, hp, rfl⟩ := List.mem_map.mp hx
      rw [hR2 a p hp]
    · exact hnd.1

theorem filter_flatMap_id (R : Employee → List (Employee × Option Fact)) (es : List Employee)
    (hR2 : ∀ e p, p ∈ R e → p.1 = e) (hnd : (es.map Employee.ID).Nodup) (e : Employee)
    (he : e ∈ es) : ((es.flatMap R).filter fun p => p.1.ID = e.ID) = R e := by
  induction es with
  | nil => cases he
  | cons a l ih =>
    rw [List.map_cons, List.nodup_cons] at hnd
    rw [List.flatMap_cons, List.filter_append]
    by_cases hae : a = e
    · subst hae
      have h1 : ((R a).filter fun p => p.1.ID = a.ID) = R a := by
        rw [List.filter_eq_self]
        intro p hp
        simp [hR2 a p hp]
      have h2 : ((l.flatMap R).filter fun p => p.1.ID = a.ID) = [] := by
        rw [List.filter_eq_nil_iff]
        intro p hp hid
        obtain ⟨x, hx, hpx⟩ := List.mem_flatMap.mp hp
        have hid2 : x.ID = a.ID := by
          rw [← hR2 x p hpx]
          exact of_decide_eq_true hid
        exact hnd.1 (hid2 ▸ List.mem_map_of_mem Employee.ID hx)
      rw [h1, h2, List.append_nil]
    · have hel : e ∈ l := by
        rcases List.mem_cons.mp he with h | h
        · exact absurd h.symm hae
        · exact h
      have h1 : ((R a).filter fun p => p.1.ID = e.ID) = [] := by
        rw [List.filter_eq_nil_iff]
        intro p hp hid
        have hid2 : a.ID = e.ID := by
          rw [← hR2 a p hp]
          exact of_decide_eq_true hid
        exact hnd.1 (hid2 ▸ List.mem_map_of_mem Employee.ID hel)
      rw [h1, List.nil_append, ih hnd.2 hel]

theorem groupByEmployeeID_flatMap (R : Employee → List (Employee × Option Fact))
    (es : List Employee) (hR1 : ∀ e, R e ≠ []) (hR2 : ∀ e p, p ∈ R e → p.1 = e)
    (hnd : (es.map Employee.ID).Nodup) : groupByEmployeeID (es.flatMap R) = es.map R := by
  unfold groupByEmployeeID
  rw [dedup_keys_flatMap R es hR1 hR2 hnd, List.map_map]
  apply List.map_congr_left
  intro e he
  exact filter_flatMap_id R es hR2 hnd e he

theorem topAggregate_eq (s : Store) (hnd : (s.employee.map Employee.ID).Nodup) :
    topAggregate s = s.employee.map fun e => (e.FullName, totalOfEmployee s e.ID) := by
  unfold topAggregate employeeLeftJoinFact
  rw [groupByEmployeeID_flatMap (leftJoinRows s) s.employee (leftJoinRows_ne_nil s)
    (leftJoinRows_fst s) hnd, List.filterMap_map,
    ← List.filterMap_eq_map]
  apply List.filterMap_congr
  intro e _
  exact aggregateGroup_leftJoinRows s e

/-- Claim C10: in a store whose ids are primary keys and whose fullNames are pairwise
distinct, the aggregate of `showTopEmployees` before ordering and `LIMIT` has one row
per employee, carrying the sum of the deltas of the facts of its id; for an employee with
a fact that total is the entry of the `calculateEmployeeRatings` map at its fullName; for
an employee without a fact the total is 0 and the map has no entry; so a name reported by
both carries the same number in both. -/
theorem topAggregate_agrees_with_ratings (s : Store) (hpk : s.PrimaryKeys)
    (hnames : (s.employee.map Employee.FullName).Nodup) :
    topAggregate s = (s.employee.map fun e => (e.FullName, totalOfEmployee s e.ID))
      ∧ ∃ ratings, calculateEmployeeRatings s = .ok ratings
        ∧ (∀ e ∈ s.employee, (∃ f ∈ s.fact, f.EmployeeID = e.ID) →
            (e.FullName, totalOfEmployee s e.ID) ∈ topAggregate s
              ∧ ratings.find? e.FullName = some (totalOfEmployee s e.ID))
        ∧ (∀ e ∈ s.employee, (¬ ∃ f ∈ s.fact, f.EmployeeID = e.ID) →
            (e.FullName, (0 : Int)) ∈ topAggregate s ∧ ratings.find? e.FullName = none)
        ∧ ∀ name total rating, (name, total) ∈ topAggregate s →
            ratings.find? name = some rating → total = rating := by
  have hagg := topAggregate_eq s hpk.1
  have hfind : ∀ e ∈ s.employee,
      (ratingsOfRows ((factJoinEmployee s).map fun p => (p.2.FullName, p.1.FactRating))).find?
          e.FullName
        = if (s.fact.filter fun f => f.EmployeeID = e.ID) = [] then none
          else some (totalOfEmployee s e.ID) := fun e he =>
    calculateEmployeeRatings_find_unique s e hpk.1 he
      (fun x hx hn => List.inj_on_of_nodup_map hnames hx he hn)
  have hmemAgg : ∀ e ∈ s.employee, (e.FullName, totalOfEmployee s e.ID) ∈ topAggregate s := by
    intro e he
    rw [hagg]
    exact List.mem_map.mpr ⟨e, he, rfl⟩
  have hnil : ∀ e : Employee, (s.fact.filter fun f => f.EmployeeID = e.ID) = []
      ↔ ¬ ∃ f ∈ s.fact, f.EmployeeID = e.ID := by
    intro e
    rw [List.filter_eq_nil_iff]
    constructor
    · rintro h ⟨f, hf, hid⟩
      exact h f hf (by simpa using hid)
    · intro h f hf hid
      exact h ⟨f, hf, of_decide_eq_true hid⟩
  refine ⟨hagg, _, calculateEmployeeRatings_eq s, ?_, ?_, ?_⟩
  · intro e he hfact
    refine ⟨hmemAgg e he, ?_⟩
    rw [hfind e he, if_neg (fun h => (hnil e).mp h hfact)]
  · intro e he hfact
    have h0 : totalOfEmployee s e.ID = 0 := by
      unfold totalOfEmployee
      rw [(hnil e).mpr hfact]
      rfl
    refine ⟨h0 ▸ hmemAgg e he, ?_⟩
    rw [hfind e he, if_pos ((hnil e).mpr hfact)]
  · intro name total rating hmem hrating
    rw [hagg] at hmem
    obtain ⟨e, he, heq⟩ := List.mem_map.mp hmem
    injection heq with h1 h2
    subst h1
    rw [hfind e he] at hrating
    by_cases hn : (s.fact.filter fun f => f.EmployeeID = e.ID) = []
    · rw [if_pos hn] at hrating
      cases hrating
    · rw [if_neg hn] at hrating
      injection hrating with h3
      rw [← h2, h3]

theorem topAggregate_agrees_with_ratings_witness :
    fourStore.PrimaryKeys ∧ (fourStore.employee.map Employee.FullName).Nodup
      ∧ topAggregate fourStore
        = (fourStore.employee.map fun e => (e.FullName, totalOfEmployee fourStore e.ID))
      ∧ topAggregate fourStore = [("A", 1), ("B", -1), ("C", 0), ("D", 2)]
      ∧ calculateEmployeeRatings fourStore = .ok [("A", 1), ("B", -1), ("D", 2)] :=
  ⟨by decide, by decide,
    (topAggregate_agrees_with_ratings fourStore (by decide) (by decide)).1, by decide, rfl⟩

/-! ## Ordering and `LIMIT 3` -/

theorem showTopLoop_rows (rows : List (String × Int)) :
    showTopLoop (rows.map fun r => [.text r.1, .integer r.2]) = rows.map topLine := by
  induction rows with
  | nil => rfl
  | cons r rows ih =>
    show topLine r :: showTopLoop (rows.map fun r => [.text r.1, .integer r.2]) = _
    rw [ih]
    rfl

theorem take_insertionSort (r : String × Int → String × Int → Prop) [DecidableRel r]
    [IsTotal (String × Int) r] [IsTrans (String × Int) r] (all : List (String × Int)) (n : Nat) :
    ((List.insertionSort r all).take n).length = min n all.length
      ∧ ((List.insertionSort r all).take n).Pairwise r
      ∧ ((List.insertionSort r all).take n ++ (List.insertionSort r all).drop n).Perm all
      ∧ ∀ a ∈ (List.insertionSort r all).take n, ∀ b ∈ (List.insertionSort r all).drop n,
          r a b := by
  have hsorted : (List.insertionSort r all).Pairwise r := List.sorted_insertionSort r all
  refine ⟨?_, hsorted.sublist (List.take_sublist n _), ?_, ?_⟩
  · rw [List.length_take, List.length_insertionSort]
  · rw [List.take_append_drop]
    exact List.perm_insertionSort r all
  · rw [← List.take_append_drop n (List.insertionSort r all)] at hsorted
    exact (List.pairwise_append.mp hsorted).2.2

theorem selectTopEmployees_desc (s : Store) (hnd : (s.employee.map Employee.ID).Nodup) :
    (selectTopEmployees s "DESC").length = min 3 s.employee.length
      ∧ (selectTopEmployees s "DESC").Pairwise (fun a b => b.2 ≤ a.2)
      ∧ ∃ omitted, (selectTopEmployees s "DESC" ++ omitted).Perm
            (s.employee.map fun e => (e.FullName, totalOfEmployee s e.ID))
          ∧ ∀ a ∈ selectTopEmployees s "DESC", ∀ b ∈ omitted, b.2 ≤ a.2 := by
  haveI : IsTotal (String × Int) (fun a b => b.2 ≤ a.2) := ⟨fun a b => Int.le_total b.2 a.2⟩
  haveI : IsTrans (String × Int) (fun a b => b.2 ≤ a.2) :=
    ⟨fun _ _ _ hab hbc => Int.le_trans hbc hab⟩
  have h := take_insertionSort (fun a b : String × Int => b.2 ≤ a.2) (topAggregate s) 3
  have hsel : selectTopEmployees s "DESC"
      = (List.insertionSort (fun a b : String × Int => b.2 ≤ a.2) (topAggregate s)).take 3 := by
    simp [selectTopEmployees, orderByTotalRating]
  rw [hsel]
  rw [topAggregate_eq s hnd] at h ⊢
  refine ⟨?_, h.2.1, _, h.2.2.1, h.2.2.2⟩
  rw [h.1, List.length_map]

theorem selectTopEmployees_asc (s : Store) (hnd : (s.employee.map Employee.ID).Nodup) :
    (selectTopEmployees s "ASC").length = min 3 s.employee.length
      ∧ (selectTopEmployees s "ASC").Pairwise (fun a b => a.2 ≤ b.2)
      ∧ ∃ omitted, (selectTopEmployees s "ASC" ++ omitted).Perm
            (s.employee.map fun e => (e.FullName, totalOfEmployee s e.ID))
          ∧ ∀ a ∈ selectTopEmployees s "ASC", ∀ b ∈ omitted, a.2 ≤ b.2 := by
  haveI : IsTotal (String × Int) (fun a b => a.2 ≤ b.2) := ⟨fun a b => Int.le_total a.2 b.2⟩
  haveI : IsTrans (String × Int) (fun a b => a.2 ≤ b.2) :=
    ⟨fun _ _ _ hab hbc => Int.le_trans hab hbc⟩
  have h := take_insertionSort (fun a b : String × Int => a.2 ≤ b.2) (topAggregate s) 3
  have hne : ¬ ("ASC" : String) = "DESC" := by decide
  have hsel : selectTopEmployees s "ASC"
      = (List.insertionSort (fun a b : String × Int => a.2 ≤ b.2) (topAggregate s)).take 3 := by
    simp [selectTopEmployees, orderByTotalRating, hne]
  rw [hsel]
  rw [topAggregate_eq s hnd] at h ⊢
  refine ⟨?_, h.2.1, _, h.2.2.1, h.2.2.2⟩
  rw [h.1, List.length_map]

theorem showTopEmployees_positive (s : Store) :
    showTopEmployees s "положительная"
      = .stdout "Топ 3 сотрудников по положительная рейтингу:\n"
        :: (selectTopEmployees s "DESC").map topLine := by
  have hhead : "Топ 3 сотрудников по " ++ "положительная" ++ " рейтингу:\n"
      = "Топ 3 сотрудников по положительная рейтингу:\n" := by decide
  unfold showTopEmployees
  rw [if_pos rfl]
  dsimp only
  rw [showTopLoop_rows, hhead]

theorem showTopEmployees_negative (s : Store) :
    showTopEmployees s "отрицательная"
      = .stdout "Топ 3 сотрудников по отрицательная рейтингу:\n"
        :: (selectTopEmployees s "ASC").map topLine := by
  have hne : ¬ ("отрицательная" : String) = "положительная" := by decide
  have hhead : "Топ 3 сотрудников по " ++ "отрицательная" ++ " рейтингу:\n"
      = "Топ 3 сотрудников по отрицательная рейтингу:\n" := by decide
  unfold showTopEmployees
  rw [if_neg hne]
  dsimp only
  rw [showTopLoop_rows, hhead]

/-- Claim C3: in a store whose ids are primary keys, `showTopEmployees` with the positive
label prints, after its heading, one line per row of its query; those rows number min(3,
number of employees), are in non-increasing order of total, and together with the omitted
rows are a rearrangement of the employees each with the sum of the deltas of the facts of
its id, no omitted total exceeding a listed one; with the negative label the same holds
with non-decreasing order and no omitted total below a listed one; and the total of an
id that no fact references is 0. -/
theorem showTopEmployees_top3 (s : Store) (hpk : s.PrimaryKeys) :
    (showTopEmployees s "положительная"
        = .stdout "Топ 3 сотрудников по положительная рейтингу:\n"
          :: (selectTopEmployees s "DESC").map topLine)
      ∧ (selectTopEmployees s "DESC").length = min 3 s.employee.length
      ∧ (selectTopEmployees s "DESC").Pairwise (fun a b => b.2 ≤ a.2)
      ∧ (∃ omitted, (selectTopEmployees s "DESC" ++ omitted).Perm
            (s.employee.map fun e => (e.FullName, totalOfEmployee s e.ID))
          ∧ ∀ a ∈ selectTopEmployees s "DESC", ∀ b ∈ omitted, b.2 ≤ a.2)
      ∧ (showTopEmployees s "отрицательная"
        = .stdout "Топ 3 сотрудников по отрицательная рейтингу:\n"
          :: (selectTopEmployees s "ASC").map topLine)
      ∧ (selectTopEmployees s "ASC").length = min 3 s.employee.length
      ∧ (selectTopEmployees s "ASC").Pairwise (fun a b => a.2 ≤ b.2)
      ∧ (∃ omitted, (selectTopEmployees s "ASC" ++ omitted).Perm
            (s.employee.map fun e => (e.FullName, totalOfEmployee s e.ID))
          ∧ ∀ a ∈ selectTopEmployees s "ASC", ∀ b ∈ omitted, a.2 ≤ b.2)
      ∧ ∀ employeeID, (s.fact.filter fun f => f.EmployeeID = employeeID) = [] →
          totalOfEmployee s employeeID = 0 := by
  have hd := selectTopEmployees_desc s hpk.1
  have ha := selectTopEmployees_asc s hpk.1
  refine ⟨showTopEmployees_positive s, hd.1, hd.2.1, hd.2.2, showTopEmployees_negative s,
    ha.1, ha.2.1, ha.2.2, ?_⟩
  intro employeeID hnil
  unfold totalOfEmployee
  rw [hnil]
  rfl

theorem showTopEmployees_top3_witness :
    fourStore.PrimaryKeys
      ∧ showTopEmployees fourStore "положительная"
        = [.stdout "Топ 3 сотрудников по положительная рейтингу:\n", .stdout "D: 2\n",
            .stdout "A: 1\n", .stdout "C: 0\n"]
      ∧ showTopEmployees fourStore "отрицательная"
        = [.stdout "Топ 3 сотрудников по отрицательная рейтингу:\n", .stdout "B: -1\n",
            .stdout "C: 0\n", .stdout "A: 1\n"]
      ∧ (selectTopEmployees fourStore "DESC").length = min 3 fourStore.employee.length
      ∧ (selectTopEmployees fourStore "ASC").length = min 3 fourStore.employee.length :=
  have h := showTopEmployees_top3 fourStore (by decide)
  ⟨by decide, h.1.trans (by decide), h.2.2.2.2.1.trans (by decide), h.2.1, h.2.2.2.2.2.1⟩

end GoFact
